import Mathlib

/-!
Verification development for the cine-recommender repository.

JavaScript strings are modelled as `List Char` (`Str`); absent / `null` /
`undefined` values as `Option`.  External services (TMDB, the generative
service, the host JSON parser) are modelled as oracles supplied through an
environment record, so that every handler is a pure function of the request
and the environment.  ASCII case folding models `String.prototype.toLowerCase`
and the four ASCII whitespace characters model the `\s` class and `trim()`.
-/

abbrev Str := List Char

/-- Whitespace characters recognised by the model of `trim()` and `\s`. -/

def isWsChar (c : Char) : Bool :=
  c ∈ [' ', '\t', '\r', '\n']

/-- The punctuation characters removed by `normalizeTitle`:
the class `[:\-–_]` of `part_003` (colon, hyphen, en dash, underscore). -/

def isPunctChar (c : Char) : Bool :=
  c ∈ [':', '-', '–', '_']

/-- Left trim: drop leading whitespace. -/

def trimLeft (s : Str) : Str := s.dropWhile isWsChar

/-- Right trim: drop trailing whitespace (structurally recursive). -/

def trimRight : Str → Str
  | [] => []
  | c :: tl =>
    match trimRight tl with
    | [] => if isWsChar c then [] else [c]
    | r => c :: r

/-- Model of `String.prototype.trim()`. -/

def trimStr (s : Str) : Str := trimRight (trimLeft s)

/-- State machine for `replace(/\s+/g, " ")`: the flag records whether the
previous character was whitespace (in which case further whitespace of the
same run is dropped). -/

def collapseWsAux : Bool → Str → Str
  | _, [] => []
  | inWs, c :: tl =>
    if isWsChar c then
      if inWs then collapseWsAux true tl
      else ' ' :: collapseWsAux true tl
    else c :: collapseWsAux false tl

/-- Model of `replace(/\s+/g, " ")`. -/

def collapseWs (s : Str) : Str := collapseWsAux false s

/-- Model of `replace(/[:\-–_]/g, "")`. -/

def removePunct (s : Str) : Str := s.filter (fun c => !(isPunctChar c))

/-- Helper for the trailing-parenthetical regex.  The input is the reversed
string just before the closing `)`.  It returns the part of that reversed
string lying before the group-opening `(`: the regex engine picks the
earliest possible start, i.e. the last `(` reachable without crossing a `)`
(the class `[^)]` excludes only `)`). -/

def stripAux : Str → Option Str
  | [] => none
  | c :: tl =>
    if c = ')' then none
    else
      match stripAux tl with
      | some r => some r
      | none => if c = '(' then some tl else none

/-- Model of `replace(/\s*\([^)]*\)\s*$/g, "")`.  Because of the `$` anchor
the global regex removes at most one trailing parenthetical group together
with the whitespace around it. -/

def stripTrailingParen (s : Str) : Str :=
  match s.reverse.dropWhile isWsChar with
  | [] => s
  | c :: rest =>
    if c = ')' then
      match stripAux rest with
      | some rem => (rem.dropWhile isWsChar).reverse
      | none => s
    else s

/-- Model of `normalizeTitle` from `part_003` (identical in `part_001`'s
second variant): lowercase and trim, strip a trailing parenthetical,
collapse whitespace runs, remove `[:\-–_]`, trim again.
`!raw` is true for `null`/`undefined` (`none`) and for the empty string. -/

def normalizeTitle (raw : Option Str) : Str :=
  match raw with
  | none => []
  | some s =>
    if s = [] then []
    else
      let t := trimStr (s.map Char.toLower)
      let t := stripTrailingParen t
      let t := collapseWs t
      let t := trimStr (removePunct t)
      t

/-! ### Data model shared by the endpoint variants -/

/-- `IncomingRating` as sent by the app (scores are JS numbers, modelled
as integers; `title`/`year` optional). -/

structure IncomingRating where
  tmdbId : Int
  overall : Int
  guion : Int
  direccion : Int
  actuacion : Int
  bso : Int
  disfrute : Int
  title : Option Str
  year : Option Str
deriving DecidableEq

/-- A recommendation object as it travels through the handlers.  Parsed
generative output may lack any field, so all three are optional; the
locally built recommendations always fill `title` and `reason`. -/

structure Rec where
  tmdbId : Option Int
  title : Option Str
  reason : Option Str
deriving DecidableEq

/-- One entry of the `results` array of a TMDB `/recommendations` response;
`id = none` models an absent or non-numeric `id` field. -/

structure TmdbRawRec where
  id : Option Int
  title : Option Str
  original_title : Option Str
  release_date : Option Str
  overview : Option Str
deriving DecidableEq

/-- Body of a successful TMDB `/movie/id` response. -/

structure TmdbMovieJson where
  title : Option Str
  release_date : Option Str
  overview : Option Str
deriving DecidableEq

/-- `TmdbMovieBasic` of `recommendations.ts`. -/

structure TmdbMovieBasic where
  tmdbId : Int
  title : Str
  year : Option Str
  overview : Option Str
deriving DecidableEq

/-- The `recommendations` field of the wrapper object parsed from the
generative output: absent, present but not an array, or an array whose
entries may be `null`. -/

inductive RecsField where
  | absent
  | notList
  | list (l : List (Option Rec))
deriving DecidableEq

/-- Result of a successful `JSON.parse`, seen through the only field the
handlers read. -/

structure ParsedWrapper where
  recommendations : RecsField
deriving DecidableEq

/-- Outcome of the generative-service call: a thrown network error, a
non-success HTTP status, or a success carrying the joined text parts. -/

inductive GeminiOutcome where
  | throw
  | badStatus (code : Nat)
  | ok (text : Str)
deriving DecidableEq

/-- External calls a handler can make, recorded in order. -/

inductive ExtCall where
  | tmdbMovie (id : Int)
  | tmdbRecs (id : Int)
  | gemini
deriving DecidableEq

inductive ReqMethod where
  | post
  | other
deriving DecidableEq

/-- The request body (plus method).  `none` models an absent field or, for
`ratings`, a non-array value (`Array.isArray` false). -/

structure Request where
  method : ReqMethod
  uid : Option Str
  ratings : Option (List IncomingRating)
  maxItems : Option Int
deriving DecidableEq

/-- A response: an error status with message, or a 200 success with a
recommendation list; both may carry an `info` string. -/

inductive ApiResponse where
  | err (status : Nat) (msg : Str) (info : Option Str)
  | ok (recs : List Rec) (info : Option Str)
deriving DecidableEq

/-- Environment of oracles for `recommendations.ts`: whether the API keys
are configured, the TMDB endpoints (`none` models a non-success response),
the generative call's outcome and the host JSON parser. -/

structure Env where
  geminiKey : Bool
  tmdbKey : Bool
  tmdbMovie : Int → Option TmdbMovieJson
  tmdbRecs : Int → Option (List TmdbRawRec)
  gemini : GeminiOutcome
  parse : Str → Option ParsedWrapper

/-! ### Helpers of `recommendations.ts` -/

/-- The placeholder title `Película <tmdbId>`. -/

def peliculaStr (id : Int) : Str := "Película ".toList ++ (toString id).toList

/-- JS `a || b` for an optional string against a default (falsy = absent
or empty). -/

def orElseStr (a : Option Str) (b : Str) : Str :=
  match a with
  | some s => if s = [] then b else s
  | none => b

/-- JS `a ?? b` (nullish coalescing) on optionals. -/

def nullish (a b : Option α) : Option α :=
  match a with
  | some x => some x
  | none => b

/-- The year derived from a `release_date` (first four characters when the
date has length at least 4). -/

def yearOfDate (d : Option Str) : Option Str :=
  match d with
  | some s => if 4 ≤ s.length then some (s.take 4) else none
  | none => none

/-- `fetchMovieBasicFromTmdb` of `recommendations.ts`, with the trace of
TMDB calls it makes.  Without a key, or on a non-success response, it
degrades to the placeholder title. -/

def fetchMovieBasicFromTmdb (env : Env) (tmdbId : Int) :
    TmdbMovieBasic × List ExtCall :=
  if !env.tmdbKey then
    (⟨tmdbId, peliculaStr tmdbId, none, none⟩, [])
  else
    match env.tmdbMovie tmdbId with
    | none => (⟨tmdbId, peliculaStr tmdbId, none, none⟩, [.tmdbMovie tmdbId])
    | some json =>
      (⟨tmdbId, orElseStr json.title (peliculaStr tmdbId),
        yearOfDate json.release_date, json.overview⟩, [.tmdbMovie tmdbId])

/-- The `for (const r of results)` loop of `fetchRecommendedFromTmdb`:
`rem` is the number of slots left before `list.length >= limitPerBase`
breaks; entries with a falsy or non-numeric `id` (`!id`, so also `id = 0`)
or an id in `seenIds` are skipped. -/

def fetchRecLoop (seenIds : List Int) : Nat → List TmdbRawRec → List TmdbMovieBasic
  | _, [] => []
  | 0, _ => []
  | rem + 1, r :: rest =>
    match r.id with
    | none => fetchRecLoop seenIds (rem + 1) rest
    | some id =>
      if id = 0 then fetchRecLoop seenIds (rem + 1) rest
      else if id ∈ seenIds then fetchRecLoop seenIds (rem + 1) rest
      else
        ⟨id, orElseStr r.title (orElseStr r.original_title (peliculaStr id)),
          yearOfDate r.release_date, r.overview⟩
          :: fetchRecLoop seenIds rem rest

/-- `fetchRecommendedFromTmdb` of `recommendations.ts` (the `baseTitle`
argument of the source is unused by its body and omitted). -/

def fetchRecommendedFromTmdb (env : Env) (baseTmdbId : Int)
    (seenIds : List Int) (limitPerBase : Nat) :
    List TmdbMovieBasic × List ExtCall :=
  if !env.tmdbKey then ([], [])
  else
    match env.tmdbRecs baseTmdbId with
    | none => ([], [.tmdbRecs baseTmdbId])
    | some results => (fetchRecLoop seenIds limitPerBase results, [.tmdbRecs baseTmdbId])

/-- The reason template of `fallbackSimpleFromTmdb`. -/

def fbReason (baseTitle : Str) : Str :=
  "Te puede encajar si te gustó \"".toList ++ baseTitle ++
  "\", porque comparte cierto tono y tipo de historia. ".toList ++
  "Además es una recomendación directa basada en los gustos de gente que también disfrutó \"".toList ++
  baseTitle ++ "\".".toList

/-- Inner loop of `fallbackSimpleFromTmdb` over one base's recommendations:
break once `result.length >= max`, skip seen ids and ids already pushed. -/

def fbInner (seenIds : List Int) (max : Nat) (baseTitle : Str) :
    List TmdbMovieBasic → List Rec → List Rec
  | [], acc => acc
  | rec :: rest, acc =>
    if max ≤ acc.length then acc
    else if rec.tmdbId ∈ seenIds then fbInner seenIds max baseTitle rest acc
    else if acc.any (fun x => x.tmdbId = some rec.tmdbId) then
      fbInner seenIds max baseTitle rest acc
    else
      fbInner seenIds max baseTitle rest
        (acc ++ [⟨some rec.tmdbId, some rec.title, some (fbReason baseTitle)⟩])

/-- Outer loop of `fallbackSimpleFromTmdb` over the (sorted) ratings, with
the trace of TMDB calls. -/

def fbOuter (env : Env) (seenIds : List Int) (max : Nat) :
    List IncomingRating → List Rec → List Rec × List ExtCall
  | [], acc => (acc, [])
  | r :: rest, acc =>
    if max ≤ acc.length then (acc, [])
    else
      let base := fetchMovieBasicFromTmdb env r.tmdbId
      let recs := fetchRecommendedFromTmdb env r.tmdbId seenIds 5
      let acc2 := fbInner seenIds max base.1.title recs.1 acc
      let rec3 := fbOuter env seenIds max rest acc2
      (rec3.1, base.2 ++ recs.2 ++ rec3.2)

/-- `fallbackSimpleFromTmdb` of `recommendations.ts` (the CatalogNeighbor
tier): walk the top-rated items, pulling up to 5 TMDB recommendations per
base, until `max` recommendations are collected. -/

def fallbackSimpleFromTmdb (env : Env) (topRatings : List IncomingRating)
    (max : Nat) (seenIds : List Int) : List Rec × List ExtCall :=
  fbOuter env seenIds max topRatings []

/-- The comparator `(a, b) => b.overall - a.overall` as a relation: `a` may
stay before `b` iff the comparator is non-positive. -/

def overallGe (a b : IncomingRating) : Prop := b.overall ≤ a.overall

instance : DecidableRel overallGe := fun _ _ => Int.decLe _ _

instance : IsTotal IncomingRating overallGe := ⟨fun a b => Int.le_total b.overall a.overall⟩

instance : IsTrans IncomingRating overallGe :=
  ⟨fun _ _ _ h1 h2 => le_trans h2 h1⟩

/-- `[...ratings].sort((a, b) => b.overall - a.overall)`.  JS `sort` is a
stable sort, and a stable sort's output is determined uniquely by the
comparator, so any stable sorting algorithm models it; insertion sort is
used because it evaluates by kernel reduction. -/

def sortByOverallDesc (l : List IncomingRating) : List IncomingRating :=
  l.insertionSort overallGe

/-- Inner loop of the candidate-building phase (`candidateMap`): cap the
map at 80, skip seen ids and ids already present; `Map` iteration order is
insertion order, so a list suffices. -/

def candInner (seenIds : List Int) :
    List TmdbMovieBasic → List TmdbMovieBasic → List TmdbMovieBasic
  | [], acc => acc
  | rec :: rest, acc =>
    if 80 ≤ acc.length then acc
    else if rec.tmdbId ∈ seenIds then candInner seenIds rest acc
    else if acc.any (fun x => x.tmdbId = rec.tmdbId) then candInner seenIds rest acc
    else candInner seenIds rest (acc ++ [rec])

/-- Outer loop of the candidate-building phase over the user's top ten
rated items (the inner `break` does not stop this loop). -/

def candOuter (env : Env) (seenIds : List Int) :
    List IncomingRating → List TmdbMovieBasic → List TmdbMovieBasic × List ExtCall
  | [], acc => (acc, [])
  | r :: rest, acc =>
    let base := fetchMovieBasicFromTmdb env r.tmdbId
    let recs := fetchRecommendedFromTmdb env r.tmdbId seenIds 10
    let acc2 := candInner seenIds recs.1 acc
    let rec3 := candOuter env seenIds rest acc2
    (rec3.1, base.2 ++ recs.2 ++ rec3.2)

/-! ### Response extraction -/

/-- The span matched by `textPart.match(/\{[\s\S]*\}/)`: from the first
opening brace to the last closing brace, `none` when no such span exists. -/

def braceSpan (s : Str) : Option Str :=
  match s.dropWhile (fun c => c ≠ Char.ofNat 123) with
  | [] => none
  | c :: tl =>
    match (c :: tl).reverse.dropWhile (fun c => c ≠ Char.ofNat 125) with
    | [] => none
    | d :: tl2 => some ((d :: tl2).reverse)

/-- The list read out of a parsed wrapper: `Array.isArray(parsed.recommendations)`
guards the access, so a missing or non-array field yields `[]`. -/

def recsOfWrapper (w : ParsedWrapper) : List (Option Rec) :=
  match w.recommendations with
  | .list l => l
  | _ => []

/-- The extraction of `recommendations.ts` (and of the other variants,
which share it verbatim): parse the whole text; on failure parse the brace
span; on double failure the wrapper stays `{}` and the candidate list is
empty. -/

def extractRecs (parse : Str → Option ParsedWrapper) (text : Str) :
    List (Option Rec) :=
  match parse text with
  | some w => recsOfWrapper w
  | none =>
    match braceSpan text with
    | none => []
    | some span =>
      match parse span with
      | some w => recsOfWrapper w
      | none => []

/-- The filter `r && r.title && r.title.toString().trim().length > 0`. -/

def titleTruthyTrim (t : Option Str) : Bool :=
  match t with
  | some s => !(s = []) && !(trimStr s = [])
  | none => false

/-- `arr.filter((r) => r && r.title && r.title.toString().trim().length > 0)`,
also dropping `null` array entries. -/

def cleanRecs (l : List (Option Rec)) : List Rec :=
  l.filterMap (fun o =>
    match o with
    | some r => if titleTruthyTrim r.title then some r else none
    | none => none)

/-! ### The `recommendations.ts` handler -/

/-- `typeof maxItems === "number" && maxItems > 0 ? maxItems : 15`. -/

def maxOf (maxItems : Option Int) : Int :=
  match maxItems with
  | some m => if 0 < m then m else 15
  | none => 15

/-- JS truthiness of the `uid` field: falsy when absent or empty. -/

def uidFalsy (u : Option Str) : Bool :=
  match u with
  | some s => s = []
  | none => true

def msgMetodo : Str := "Método no permitido".toList

def msgUidRatings : Str := "uid y ratings (array) son obligatorios".toList

def infoSinValoraciones : Str := "Usuario sin valoraciones aún.".toList

def infoFbSinCandidatas : Str :=
  "TMDB no ha devuelto candidatas, usando fallback simple.".toList

def msgSinGemini : Str :=
  "Gemini no está configurado en el servidor (falta GEMINI_API_KEY).".toList

def infoSinGemini : Str :=
  "Configura GEMINI_API_KEY en Vercel y vuelve a desplegar.".toList

def infoFbStatus (code : Nat) : Str :=
  "Gemini devolvió ".toList ++ (toString code).toList ++ ", usando fallback.".toList

def infoFbVacias : Str :=
  "Gemini devolvió recomendaciones vacías, usando fallback.".toList

def infoFbExcepcion : Str :=
  "Excepción al llamar a Gemini, usando fallback.".toList

def infoGeminiOk : Str :=
  "Recomendaciones devueltas por Gemini (con filtrado).".toList

/-- The handler of `src/api/recommendations.ts`, returning the response and
the ordered trace of external calls.  The combined JS guard
`!uid || !Array.isArray(ratings)` is split into two checks with the same
400 response. -/

def handlerRecommendationsTs (env : Env) (req : Request) :
    ApiResponse × List ExtCall :=
  match req.method with
  | .other => (.err 405 msgMetodo none, [])
  | .post =>
    match req.ratings with
    | none => (.err 400 msgUidRatings none, [])
    | some ratings =>
      if uidFalsy req.uid then (.err 400 msgUidRatings none, [])
      else if ratings = [] then (.ok [] (some infoSinValoraciones), [])
      else
        let max := maxOf req.maxItems
        let sorted := sortByOverallDesc ratings
        let seenIds := ratings.map (·.tmdbId)
        let topForTmdb := sorted.take 10
        let cands := candOuter env seenIds topForTmdb []
        if cands.1 = [] then
          let fb := fallbackSimpleFromTmdb env sorted max.toNat seenIds
          (.ok fb.1 (some infoFbSinCandidatas), cands.2 ++ fb.2)
        else if !env.geminiKey then
          (.err 500 msgSinGemini (some infoSinGemini), cands.2)
        else
          match env.gemini with
          | .throw =>
            let fb := fallbackSimpleFromTmdb env sorted max.toNat seenIds
            (.ok fb.1 (some infoFbExcepcion), cands.2 ++ [.gemini] ++ fb.2)
          | .badStatus code =>
            let fb := fallbackSimpleFromTmdb env sorted max.toNat seenIds
            (.ok fb.1 (some (infoFbStatus code)), cands.2 ++ [.gemini] ++ fb.2)
          | .ok text =>
            let finalRecs := cleanRecs (extractRecs env.parse text)
            if finalRecs = [] then
              let fb := fallbackSimpleFromTmdb env sorted max.toNat seenIds
              (.ok fb.1 (some infoFbVacias), cands.2 ++ [.gemini] ++ fb.2)
            else
              (.ok (finalRecs.take max.toNat) (some infoGeminiOk),
               cands.2 ++ [.gemini])

/-! ### The LocalHeuristic tier (`localFallback`) -/

/-- Reason template of `localFallback` in `part_000` / `recommend.js`. -/

def localReason (r : IncomingRating) : Str :=
  "Te la recomiendo porque la valoraste con un ".toList ++
  (toString r.overall).toList ++ "/10.".toList

/-- Reason template of `localFallback` in `part_003` (and `part_001`'s
first variant), which also cites guion and disfrute. -/

def localReasonP3 (r : IncomingRating) : Str :=
  "Te la recomiendo porque la valoraste con un ".toList ++
  (toString r.overall).toList ++ "/10 (guion ".toList ++
  (toString r.guion).toList ++ "/10, disfrute ".toList ++
  (toString r.disfrute).toList ++ "/10).".toList

/-- `r.title ?? `Película ...`` (nullish, so an empty title is kept). -/

def titleOrPlaceholder (r : IncomingRating) : Str :=
  match r.title with
  | some t => t
  | none => peliculaStr r.tmdbId

/-- `localFallback` of `part_000` / `recommend.js`: the user's own rated
items, sorted by overall score descending, truncated with
`slice(0, Math.min(max, length))` and mapped to recommendations. -/

def localFallback (ratings : List IncomingRating) (max : Int) : List Rec :=
  ((sortByOverallDesc ratings).take
      (min max.toNat (sortByOverallDesc ratings).length)).map
    (fun r => ⟨some r.tmdbId, some (titleOrPlaceholder r), some (localReason r)⟩)

/-- `localFallback` of `part_003`, identical except for the reason text. -/

def localFallbackP3 (ratings : List IncomingRating) (max : Int) : List Rec :=
  ((sortByOverallDesc ratings).take
      (min max.toNat (sortByOverallDesc ratings).length)).map
    (fun r => ⟨some r.tmdbId, some (titleOrPlaceholder r), some (localReasonP3 r)⟩)

/-! ### The `part_003` handler (normalizing variant) -/

/-- Environment for the `part_003` / `part_001`-v2 handlers: TMDB is used
only through `fetchTitleYearFromTmdb`. -/

structure Env3 where
  geminiKey : Bool
  tmdbKey : Bool
  tmdbMovie : Int → Option TmdbMovieJson
  gemini : GeminiOutcome
  parse : Str → Option ParsedWrapper

/-- JS truthiness of an optional title. -/

def titleTruthy (t : Option Str) : Bool :=
  match t with
  | some s => !(s = [])
  | none => false

/-- `fetchTitleYearFromTmdb`: on a missing key, a non-success status or a
thrown error it returns `{}` (both fields absent). -/

def fetchTitleYearFromTmdb (env : Env3) (tmdbId : Int) : Option Str × Option Str :=
  if !env.tmdbKey then (none, none)
  else
    match env.tmdbMovie tmdbId with
    | none => (none, none)
    | some data => (data.title, yearOfDate data.release_date)

/-- The enrichment step of `part_003`: ratings that already carry a truthy
title (or when no TMDB key is configured) pass through; otherwise title and
year are filled from TMDB via nullish coalescing. -/

def enrichRating (env : Env3) (r : IncomingRating) : IncomingRating :=
  if titleTruthy r.title || !env.tmdbKey then r
  else
    let extra := fetchTitleYearFromTmdb env r.tmdbId
    { r with title := nullish r.title extra.1, year := nullish r.year extra.2 }

/-- `ratedTitlesSet`: normalized titles of the (enriched) ratings, empty
results excluded. -/

def ratedTitlesSetOf (ratings : List IncomingRating) : List Str :=
  (ratings.map (fun r => normalizeTitle r.title)).filter (fun t => !(t = []))

/-- `ratedIdsSet`: the ratings' ids, kept only when numeric and positive. -/

def ratedIdsSetOf (ratings : List IncomingRating) : List Int :=
  (ratings.map (·.tmdbId)).filter (fun id => 0 < id)

/-- `r.tmdbId && ratedIdsSet.has(r.tmdbId)`: the id is truthy (present and
nonzero) and belongs to the set. -/

def idTruthyMem (o : Option Int) (ids : List Int) : Bool :=
  match o with
  | some v => !(v = 0) && v ∈ ids
  | none => false

/-- The blocklist filter of `part_003` (and `part_001`-v2) applied to the
already title-cleaned recommendations. -/

def geminiBlockFilter (ratedTitles : List Str) (ratedIds : List Int)
    (l : List Rec) : List Rec :=
  l.filter (fun r =>
    let tNorm := normalizeTitle r.title
    !(tNorm = []) && !(tNorm ∈ ratedTitles) && !(idTruthyMem r.tmdbId ratedIds))

def infoSoloLocales : Str :=
  "Devueltas solo recomendaciones locales (sin IA, falta GEMINI_API_KEY).".toList

def infoIaFallback : Str := "Recomendaciones devueltas (IA + fallback).".toList

/-- The handler of `src/unnamed/part_003` (`pages/api/recommendations.ts`,
normalizing variant): enrich ratings, build the rated-title and rated-id
blocklists, and filter the generative output against them, falling back to
the user's own top-rated items when the generative tier yields nothing. -/

def handlerPart003 (env : Env3) (req : Request) : ApiResponse :=
  match req.method with
  | .other => .err 405 msgMetodo none
  | .post =>
    match req.ratings with
    | none => .err 400 msgUidRatings none
    | some rawRatings =>
      if uidFalsy req.uid then .err 400 msgUidRatings none
      else if rawRatings = [] then .ok [] (some infoSinValoraciones)
      else
        let max := maxOf req.maxItems
        let ratings := rawRatings.map (enrichRating env)
        let ratedTitles := ratedTitlesSetOf ratings
        let ratedIds := ratedIdsSetOf ratings
        let localFb := localFallbackP3 ratings max
        if !env.geminiKey then .ok localFb (some infoSoloLocales)
        else
          let finalRecs :=
            match env.gemini with
            | .throw => localFb
            | .badStatus _ => localFb
            | .ok text =>
              let cleaned :=
                geminiBlockFilter ratedTitles ratedIds
                  (cleanRecs (extractRecs env.parse text))
              if cleaned = [] then localFb else cleaned
          .ok (finalRecs.take max.toNat) (some infoIaFallback)

/-! ### The `part_001` second handler (strict variant) -/

def msgFaltaGemini1v2 : Str :=
  "Falta configurar GEMINI_API_KEY en el backend. No se pueden generar recomendaciones con IA.".toList

def infoIaError1v2 : Str :=
  "La IA no ha podido generar recomendaciones (error en Gemini).".toList

def infoIaExcepcion1v2 : Str :=
  "La IA no ha podido generar recomendaciones por un error inesperado.".toList

def infoIaVistas1v2 : Str :=
  "La IA ha respondido, pero todas las películas que proponía parecían ya vistas o no válidas.".toList

def infoIaOk1v2 : Str := "Recomendaciones IA generadas correctamente.".toList

/-- The second handler of `src/unnamed/part_001`: requires the generative
key up front (500 otherwise) and, when the generative service fails or
every proposal is filtered out, answers 200 with an empty list instead of
any fallback tier. -/

def handlerPart001v2 (env : Env3) (req : Request) : ApiResponse :=
  match req.method with
  | .other => .err 405 msgMetodo none
  | .post =>
    match req.ratings with
    | none => .err 400 msgUidRatings none
    | some rawRatings =>
      if uidFalsy req.uid then .err 400 msgUidRatings none
      else if rawRatings = [] then .ok [] (some infoSinValoraciones)
      else
        let max := maxOf req.maxItems
        if !env.geminiKey then .err 500 msgFaltaGemini1v2 none
        else
          let ratings := rawRatings.map (enrichRating env)
          let ratedTitles := ratedTitlesSetOf ratings
          let ratedIds := ratedIdsSetOf ratings
          match env.gemini with
          | .throw => .ok [] (some infoIaExcepcion1v2)
          | .badStatus _ => .ok [] (some infoIaError1v2)
          | .ok text =>
            let cleaned :=
              geminiBlockFilter ratedTitles ratedIds
                (cleanRecs (extractRecs env.parse text))
            let finalRecs := cleaned.take max.toNat
            if finalRecs = [] then .ok [] (some infoIaVistas1v2)
            else .ok finalRecs (some infoIaOk1v2)

/-- The characters that can break idempotence of `normalizeTitle`:
parentheses and the stripped punctuation class. -/

def isBadChar (c : Char) : Bool :=
  c ∈ ['(', ')', ':', '-', '–', '_']

/-- `headNotWs l` holds when `l` is empty or starts with non-whitespace. -/

def headNotWs : Str → Prop
  | [] => True
  | c :: _ => isWsChar c = false

/-! ### List-level lemmas: whitespace collapsing -/

/-- No two adjacent whitespace characters. -/

def noAdjWs : Str → Prop
  | [] => True
  | [_] => True
  | a :: b :: tl => ¬(isWsChar a = true ∧ isWsChar b = true) ∧ noAdjWs (b :: tl)

/-! ### Idempotence of `normalizeTitle` on parenthesis- and punctuation-free
inputs -/

/-- A string avoiding the characters that can break idempotence. -/

def goodStr (s : Str) : Prop := ∀ c ∈ s, isBadChar c = false

/-- An environment with TMDB configured and one catalog recommendation
(id 999, title `Alpha`) for every base movie. -/

def envAlpha : Env :=
  { geminiKey := true
    tmdbKey := true
    tmdbMovie := fun _ => none
    tmdbRecs := fun _ => some [⟨some 999, some "Alpha".toList, none, none, none⟩]
    gemini := .badStatus 500
    parse := fun _ => none }

/-- A single rating: movie 100 titled `Alpha`, rated 9 overall. -/

def ratingAlpha : IncomingRating :=
  ⟨100, 9, 8, 8, 8, 8, 9, some "Alpha".toList, some "1982".toList⟩

/-- An environment with nothing configured. -/

def envNone : Env :=
  { geminiKey := false
    tmdbKey := false
    tmdbMovie := fun _ => none
    tmdbRecs := fun _ => none
    gemini := .throw
    parse := fun _ => none }

/-- The recommendation produced by `envAlpha`'s catalog fallback. -/

def recGamma999 : Rec :=
  ⟨some 999, some "Alpha".toList, some (fbReason (peliculaStr 100))⟩

def reqAlpha : Request :=
  { method := .post, uid := some "u".toList, ratings := some [ratingAlpha],
    maxItems := none }

/-- The generative service proposes `Gamma`, which is not blocked. -/

def wrapperGamma : ParsedWrapper :=
  ⟨.list [some ⟨none, some "Gamma".toList, some "great pick".toList⟩]⟩

def envGamma : Env3 :=
  { geminiKey := true
    tmdbKey := false
    tmdbMovie := fun _ => none
    gemini := .ok "json".toList
    parse := fun _ => some wrapperGamma }

/-! ### Claim C6 -/

/-- The claim of C6, stated for the cited `part_001` second handler: on a
non-success generative status the pipeline is supposed to advance to the
CatalogNeighbor tier and, failing that, to the LocalHeuristic tier.  With
non-empty ratings the LocalHeuristic tier is non-empty (it reuses the
user's own rated items), so the claimed behaviour entails a success
response with a non-empty recommendation list. -/

def geminiFailureClaim : Prop :=
  ∀ (env : Env3) (req : Request) (u : Str) (ratings : List IncomingRating),
    req.method = .post → req.uid = some u → u ≠ [] →
    req.ratings = some ratings → ratings ≠ [] →
    env.geminiKey = true → (∃ code, env.gemini = .badStatus code) →
    ∃ recs info, handlerPart001v2 env req = .ok recs info ∧ recs ≠ []

def envBad : Env3 :=
  { geminiKey := true
    tmdbKey := false
    tmdbMovie := fun _ => none
    gemini := .badStatus 500
    parse := fun _ => none }

/-! ### Character-level lemmas for the normalizer -/

theorem toNat_ofNat_of_valid {n : Nat} (h : n < 55296) :
    (Char.ofNat n).toNat = n := by
  rw [Char.ofNat, dif_pos (Or.inl h)]
  rfl

theorem toLower_eq_self_of_not {c : Char} (h : ¬(65 ≤ c.toNat ∧ c.toNat ≤ 90)) :
    c.toLower = c := by
  unfold Char.toLower
  dsimp only
  split
  · next hc => exact absurd ⟨hc.1, hc.2⟩ h
  · rfl

theorem toLower_toNat_of_upper {c : Char} (h : 65 ≤ c.toNat ∧ c.toNat ≤ 90) :
    c.toLower.toNat = c.toNat + 32 := by
  unfold Char.toLower
  dsimp only
  split
  · next _ => exact toNat_ofNat_of_valid (by omega)
  · next hc => exact absurd ⟨h.1, h.2⟩ hc

/-- `Char.toLower` (the model of ASCII lowercasing) either fixes a character
or produces a lowercase letter (code 97–122). -/

theorem toLower_eq_or_lower (c : Char) :
    c.toLower = c ∨ (97 ≤ c.toLower.toNat ∧ c.toLower.toNat ≤ 122) := by
  by_cases h : 65 ≤ c.toNat ∧ c.toNat ≤ 90
  · right
    rw [toLower_toNat_of_upper h]
    omega
  · left
    exact toLower_eq_self_of_not h

/-- Lowercasing is idempotent. -/

theorem toLower_toLower (c : Char) : c.toLower.toLower = c.toLower := by
  by_cases h : 65 ≤ c.toNat ∧ c.toNat ≤ 90
  · apply toLower_eq_self_of_not
    rw [toLower_toNat_of_upper h]
    omega
  · rw [toLower_eq_self_of_not h]
    exact toLower_eq_self_of_not h

theorem isBadChar_codes {b : Char} (hb : isBadChar b = true) :
    b.toNat = 40 ∨ b.toNat = 41 ∨ b.toNat = 58 ∨ b.toNat = 45 ∨
    b.toNat = 8211 ∨ b.toNat = 95 := by
  simp only [isBadChar, List.mem_cons, List.not_mem_nil, or_false,
    decide_eq_true_eq] at hb
  rcases hb with h | h | h | h | h | h <;> subst h <;> decide

theorem isBadChar_toLower {c : Char} (hc : isBadChar c = false) :
    isBadChar c.toLower = false := by
  rcases toLower_eq_or_lower c with h | h
  · rw [h]; exact hc
  · cases hb : isBadChar c.toLower
    · rfl
    · rcases isBadChar_codes hb with h1 | h1 | h1 | h1 | h1 | h1 <;> omega

theorem isPunctChar_eq_false {c : Char} (h : isBadChar c = false) :
    isPunctChar c = false := by
  cases hp : isPunctChar c
  · rfl
  · exfalso
    simp only [isBadChar, isPunctChar, List.mem_cons, List.not_mem_nil,
      or_false, decide_eq_true_eq, decide_eq_false_iff_not] at h hp
    tauto

theorem ne_rparen_of_good {c : Char} (h : isBadChar c = false) : c ≠ ')' := by
  simp only [isBadChar, List.mem_cons, List.not_mem_nil, or_false,
    decide_eq_false_iff_not] at h
  tauto

theorem isWsChar_space : isWsChar ' ' = true := by decide

theorem isBadChar_space : isBadChar ' ' = false := by decide

theorem toLower_space : Char.toLower ' ' = ' ' := by decide

/-! ### List-level lemmas: trimming -/

theorem trimRight_sublist : ∀ l : Str, List.Sublist (trimRight l) l
  | [] => List.Sublist.refl []
  | c :: tl => by
    have ih := trimRight_sublist tl
    simp only [trimRight]
    cases h : trimRight tl with
    | nil =>
      by_cases hws : isWsChar c = true
      · rw [if_pos hws]
        exact List.nil_sublist _
      · rw [if_neg hws]
        exact List.cons_sublist_cons.mpr (List.nil_sublist tl)
    | cons x xs =>
      rw [h] at ih
      exact List.cons_sublist_cons.mpr ih

theorem mem_trimRight {c : Char} {l : Str} (h : c ∈ trimRight l) : c ∈ l :=
  (trimRight_sublist l).mem h

/-- A nonempty `trimRight` of a cons keeps the head. -/

theorem trimRight_cons_shape (a : Char) (l : Str) :
    trimRight (a :: l) = [] ∨ ∃ t, trimRight (a :: l) = a :: t := by
  simp only [trimRight]
  cases h : trimRight l with
  | nil =>
    by_cases hws : isWsChar a = true
    · left; rw [if_pos hws]
    · right; exact ⟨[], by rw [if_neg hws]⟩
  | cons x xs => right; exact ⟨x :: xs, rfl⟩

theorem trimRight_trimRight : ∀ l : Str, trimRight (trimRight l) = trimRight l
  | [] => rfl
  | c :: tl => by
    have ih := trimRight_trimRight tl
    simp only [trimRight]
    cases h : trimRight tl with
    | nil =>
      by_cases hws : isWsChar c = true
      · rw [if_pos hws]; rfl
      · rw [if_neg hws]
        simp [trimRight, hws]
    | cons x xs =>
      rw [h] at ih
      show trimRight (c :: x :: xs) = c :: x :: xs
      conv_lhs => rw [trimRight]
      rw [ih]

theorem mem_trimStr {c : Char} {l : Str} (h : c ∈ trimStr l) : c ∈ l :=
  (List.dropWhile_sublist isWsChar).mem (mem_trimRight h)

theorem headNotWs_dropWhile (l : Str) : headNotWs (l.dropWhile isWsChar) := by
  induction l with
  | nil => trivial
  | cons c tl ih =>
    rw [List.dropWhile_cons]
    split
    · exact ih
    · next hws => simpa only [headNotWs, Bool.not_eq_true] using hws

theorem dropWhile_eq_self_of_headNotWs {l : Str} (h : headNotWs l) :
    l.dropWhile isWsChar = l := by
  cases l with
  | nil => rfl
  | cons c tl =>
    simp only [headNotWs] at h
    rw [List.dropWhile_cons, if_neg (by simp [h])]

theorem headNotWs_trimRight {l : Str} (h : headNotWs l) :
    headNotWs (trimRight l) := by
  cases l with
  | nil => trivial
  | cons a tl =>
    rcases trimRight_cons_shape a tl with he | ⟨t, he⟩
    · rw [he]; trivial
    · rw [he]
      simpa only [headNotWs] using h

theorem trimStr_trimStr (l : Str) : trimStr (trimStr l) = trimStr l := by
  unfold trimStr trimLeft
  rw [dropWhile_eq_self_of_headNotWs
        (headNotWs_trimRight (headNotWs_dropWhile l)),
      trimRight_trimRight]

theorem noAdjWs_tail {a : Char} {l : Str} (h : noAdjWs (a :: l)) : noAdjWs l := by
  cases l with
  | nil => trivial
  | cons b tl => exact h.2

theorem noAdjWs_cons {a : Char} {l : Str} (hl : noAdjWs l)
    (hhead : ∀ b tl, l = b :: tl → ¬(isWsChar a = true ∧ isWsChar b = true)) :
    noAdjWs (a :: l) := by
  cases l with
  | nil => trivial
  | cons b tl => exact ⟨hhead b tl rfl, hl⟩

theorem mem_collapseWsAux {c : Char} :
    ∀ (b : Bool) (l : Str), c ∈ collapseWsAux b l → c ∈ l ∨ c = ' '
  | _, [], h => by simp [collapseWsAux] at h
  | b, x :: xs, h => by
    rw [collapseWsAux] at h
    split at h
    · split at h
      · rcases mem_collapseWsAux true xs h with h' | h'
        · exact Or.inl (List.mem_cons_of_mem x h')
        · exact Or.inr h'
      · rcases List.mem_cons.mp h with h' | h'
        · exact Or.inr h'
        · rcases mem_collapseWsAux true xs h' with h'' | h''
          · exact Or.inl (List.mem_cons_of_mem x h'')
          · exact Or.inr h''
    · rcases List.mem_cons.mp h with h' | h'
      · exact Or.inl (h' ▸ List.mem_cons_self x xs)
      · rcases mem_collapseWsAux false xs h' with h'' | h''
        · exact Or.inl (List.mem_cons_of_mem x h'')
        · exact Or.inr h''

/-- Whitespace surviving `collapseWs` is the single space it emits. -/

theorem wsSpace_collapseWsAux {c : Char} :
    ∀ (b : Bool) (l : Str), c ∈ collapseWsAux b l → isWsChar c = true → c = ' '
  | _, [], h, _ => by simp [collapseWsAux] at h
  | b, x :: xs, h, hws => by
    rw [collapseWsAux] at h
    split at h
    · split at h
      · exact wsSpace_collapseWsAux true xs h hws
      · rcases List.mem_cons.mp h with h' | h'
        · exact h'
        · exact wsSpace_collapseWsAux true xs h' hws
    · next hx =>
      rcases List.mem_cons.mp h with h' | h'
      · exact absurd (h' ▸ hws) hx
      · exact wsSpace_collapseWsAux false xs h' hws

/-- In state `true` the collapser never emits leading whitespace. -/

theorem collapseWsAux_true_head :
    ∀ (l : Str) (c : Char) (tl : Str),
      collapseWsAux true l = c :: tl → isWsChar c = false
  | [], c, tl, h => by simp [collapseWsAux] at h
  | x :: xs, c, tl, h => by
    rw [collapseWsAux] at h
    split at h
    · exact collapseWsAux_true_head xs c tl h
    · next hx =>
      rw [List.cons.injEq] at h
      rw [← h.1]
      simpa only [Bool.not_eq_true] using hx

theorem noAdjWs_collapseWsAux : ∀ (b : Bool) (l : Str), noAdjWs (collapseWsAux b l)
  | _, [] => trivial
  | b, x :: xs => by
    rw [collapseWsAux]
    split
    · next hx =>
      split
      · exact noAdjWs_collapseWsAux true xs
      · apply noAdjWs_cons (noAdjWs_collapseWsAux true xs)
        intro b' tl' he hc
        have hh := collapseWsAux_true_head xs b' tl' he
        rw [hh] at hc
        exact Bool.false_ne_true hc.2
    · next hx =>
      apply noAdjWs_cons (noAdjWs_collapseWsAux false xs)
      intro b' tl' he hc
      exact absurd hc.1 hx

/-- On a string with no adjacent whitespace whose whitespace is all plain
spaces, the collapser is the identity. -/

theorem collapseWsAux_eq_self :
    ∀ l : Str, noAdjWs l → (∀ c ∈ l, isWsChar c = true → c = ' ') →
      collapseWsAux false l = l ∧ (headNotWs l → collapseWsAux true l = l)
  | [], _, _ => ⟨rfl, fun _ => rfl⟩
  | x :: xs, hadj, hsp => by
    have ih := collapseWsAux_eq_self xs (noAdjWs_tail hadj)
      (fun c hc => hsp c (List.mem_cons_of_mem x hc))
    constructor
    · rw [collapseWsAux]
      by_cases hx : isWsChar x = true
      · have hxsp : x = ' ' := hsp x (List.mem_cons_self x xs) hx
        rw [if_pos hx, if_neg (by simp)]
        have hxs : collapseWsAux true xs = xs := by
          apply ih.2
          cases xs with
          | nil => trivial
          | cons y ys =>
            simp only [headNotWs]
            cases hy : isWsChar y with
            | false => rfl
            | true => exact absurd ⟨hx, hy⟩ hadj.1
        rw [hxs, hxsp]
      · rw [if_neg hx, ih.1]
    · intro hh
      simp only [headNotWs] at hh
      cases xs with
      | nil =>
        rw [collapseWsAux, if_neg (by simp [hh])]
        rfl
      | cons y ys =>
        rw [collapseWsAux, if_neg (by simp [hh])]
        rw [ih.1]

theorem collapseWs_eq_self {l : Str} (hadj : noAdjWs l)
    (hsp : ∀ c ∈ l, isWsChar c = true → c = ' ') : collapseWs l = l :=
  (collapseWsAux_eq_self l hadj hsp).1

/-! ### `noAdjWs` is preserved by trimming -/

theorem noAdjWs_dropWhile {l : Str} (h : noAdjWs l) :
    noAdjWs (l.dropWhile isWsChar) := by
  induction l with
  | nil => trivial
  | cons c tl ih =>
    rw [List.dropWhile_cons]
    split
    · exact ih (noAdjWs_tail h)
    · exact h

theorem noAdjWs_trimRight : ∀ l : Str, noAdjWs l → noAdjWs (trimRight l)
  | [], _ => trivial
  | c :: tl, h => by
    have ih := noAdjWs_trimRight tl (noAdjWs_tail h)
    simp only [trimRight]
    cases htl : trimRight tl with
    | nil =>
      by_cases hws : isWsChar c = true
      · rw [if_pos hws]; trivial
      · rw [if_neg hws]; trivial
    | cons x xs =>
      rw [htl] at ih
      apply noAdjWs_cons ih
      intro b' tl' he hc
      rw [List.cons.injEq] at he
      cases tl with
      | nil => simp [trimRight] at htl
      | cons y ys =>
        rcases trimRight_cons_shape y ys with h0 | ⟨t, h0⟩
        · rw [h0] at htl; cases htl
        · rw [h0] at htl
          rw [List.cons.injEq] at htl
          apply h.1
          rw [← he.1, ← htl.1] at hc
          exact hc

theorem noAdjWs_trimStr {l : Str} (h : noAdjWs l) : noAdjWs (trimStr l) :=
  noAdjWs_trimRight _ (noAdjWs_dropWhile h)

/-! ### Strip and punctuation lemmas -/

theorem stripTrailingParen_eq_self {l : Str} (h : ∀ c ∈ l, c ≠ ')') :
    stripTrailingParen l = l := by
  unfold stripTrailingParen
  cases hd : l.reverse.dropWhile isWsChar with
  | nil => rfl
  | cons c rest =>
    have hc : c ∈ l := by
      have : c ∈ l.reverse.dropWhile isWsChar := by rw [hd]; exact List.mem_cons_self c rest
      exact List.mem_reverse.mp ((List.dropWhile_sublist isWsChar).mem this)
    dsimp only
    rw [if_neg (h c hc)]

theorem removePunct_eq_self {l : Str} (h : ∀ c ∈ l, isPunctChar c = false) :
    removePunct l = l := by
  unfold removePunct
  rw [List.filter_eq_self]
  intro a ha
  rw [h a ha]
  rfl

theorem goodStr_map_toLower {s : Str} (h : goodStr s) :
    goodStr (s.map Char.toLower) := by
  intro c hc
  rcases List.mem_map.mp hc with ⟨d, hd, rfl⟩
  exact isBadChar_toLower (h d hd)

theorem goodStr_trimStr {s : Str} (h : goodStr s) : goodStr (trimStr s) :=
  fun c hc => h c (mem_trimStr hc)

theorem goodStr_collapseWs {s : Str} (h : goodStr s) : goodStr (collapseWs s) := by
  intro c hc
  rcases mem_collapseWsAux false s hc with h' | h'
  · exact h c h'
  · rw [h']
    exact isBadChar_space

/-- On good input, `normalizeTitle` is lower-trim, collapse, trim. -/

theorem normalizeTitle_eq_of_good {s : Str} (h : goodStr s) :
    normalizeTitle (some s) = trimStr (collapseWs (trimStr (s.map Char.toLower))) := by
  by_cases hs : s = []
  · subst hs
    rfl
  · unfold normalizeTitle
    dsimp only
    rw [if_neg hs]
    have h1 : stripTrailingParen (trimStr (s.map Char.toLower))
        = trimStr (s.map Char.toLower) := by
      apply stripTrailingParen_eq_self
      intro c hc
      exact ne_rparen_of_good (goodStr_trimStr (goodStr_map_toLower h) c hc)
    have h2 : removePunct (collapseWs (trimStr (s.map Char.toLower)))
        = collapseWs (trimStr (s.map Char.toLower)) := by
      apply removePunct_eq_self
      intro c hc
      exact isPunctChar_eq_false
        (goodStr_collapseWs (goodStr_trimStr (goodStr_map_toLower h)) c hc)
    rw [h1, h2]

theorem map_toLower_eq_self {s : Str} (h : ∀ c ∈ s, c.toLower = c) :
    s.map Char.toLower = s := by
  induction s with
  | nil => rfl
  | cons c tl ih =>
    rw [List.map_cons, h c (List.mem_cons_self c tl),
        ih (fun d hd => h d (List.mem_cons_of_mem c hd))]

/-- Each character of a normalized good string is fixed by lowercasing. -/

theorem normalized_fixed_toLower {s : Str} {c : Char}
    (hc : c ∈ trimStr (collapseWs (trimStr (s.map Char.toLower)))) :
    c.toLower = c := by
  rcases mem_collapseWsAux false _ (mem_trimStr hc) with h' | h'
  · rcases List.mem_map.mp (mem_trimStr h') with ⟨d, _, rfl⟩
    exact toLower_toLower d
  · rw [h']
    exact toLower_space

theorem noAdjWs_collapseWs (l : Str) : noAdjWs (collapseWs l) :=
  noAdjWs_collapseWsAux false l

theorem wsSpace_collapseWs {c : Char} {l : Str} (h : c ∈ collapseWs l)
    (hw : isWsChar c = true) : c = ' ' :=
  wsSpace_collapseWsAux false l h hw

/-! ### Claim C2 -/

/-- C2 (counterexample): `normalizeTitle` is not idempotent.  On
`"a - b"` the whitespace collapse happens before the hyphen is removed, so
one pass leaves the double space `"a  b"` and a second pass contracts it
to `"a b"`. -/

theorem normalizeNotIdempotent :
    normalizeTitle (some (normalizeTitle (some ('a' :: ' ' :: '-' :: ' ' :: 'b' :: []))))
      ≠ normalizeTitle (some ('a' :: ' ' :: '-' :: ' ' :: 'b' :: [])) := by
  decide

/-- C2 (amended): the title normalizer is idempotent on every input that
contains no parenthesis and none of the stripped punctuation characters
(colon, hyphen, en dash, underscore): for such `x`,
`normalize(normalize(x)) = normalize(x)`.  (On general inputs idempotence
fails: removing punctuation can merge two whitespace runs after the
collapse step, and stripping one trailing parenthetical can expose
another.) -/

theorem normalizeIdempotentOnCleanInputs (x : Option Str)
    (h : ∀ s, x = some s → goodStr s) :
    normalizeTitle (some (normalizeTitle x)) = normalizeTitle x := by
  cases x with
  | none => rfl
  | some s =>
    have hg := h s rfl
    rw [normalizeTitle_eq_of_good hg]
    have hgm : goodStr (trimStr (collapseWs (trimStr (s.map Char.toLower)))) :=
      goodStr_trimStr (goodStr_collapseWs (goodStr_trimStr (goodStr_map_toLower hg)))
    rw [normalizeTitle_eq_of_good hgm]
    rw [map_toLower_eq_self (fun c hc => normalized_fixed_toLower hc)]
    rw [trimStr_trimStr]
    rw [collapseWs_eq_self
          (noAdjWs_trimStr (noAdjWs_collapseWs _))
          (fun c hc hw => wsSpace_collapseWs (mem_trimStr hc) hw)]
    rw [trimStr_trimStr]

/-- C2 (witness): the amended idempotence at a concrete clean input with a
double space and capital letters. -/

theorem normalizeIdempotentWitness :
    normalizeTitle (some (normalizeTitle (some "El  Padrino".toList)))
      = normalizeTitle (some "El  Padrino".toList) :=
  normalizeIdempotentOnCleanInputs (some ("El  Padrino".toList))
    (fun _ hs => by cases hs; unfold goodStr; decide)

/-! ### Claim C3 -/

/-- C3: the normalizer identifies the spec's example pair:
`normalize("The Thing (1982)") = normalize("the   thing")`. -/

theorem normalizeExampleEquality :
    normalizeTitle (some "The Thing (1982)".toList)
      = normalizeTitle (some "the   thing".toList) := by
  decide

/-! ### Invariants of the catalog-neighbor fallback -/

theorem fbInner_invariant (seen : List Int) (max : Nat) (bt : Str) :
    ∀ (l : List TmdbMovieBasic) (acc : List Rec),
      acc.length ≤ max →
      (∀ x ∈ acc, ∀ v, x.tmdbId = some v → v ∉ seen) →
      acc.Pairwise (fun a b => a.tmdbId ≠ b.tmdbId) →
      (fbInner seen max bt l acc).length ≤ max ∧
      (∀ x ∈ fbInner seen max bt l acc, ∀ v, x.tmdbId = some v → v ∉ seen) ∧
      (fbInner seen max bt l acc).Pairwise (fun a b => a.tmdbId ≠ b.tmdbId)
  | [], acc, h1, h2, h3 => ⟨h1, h2, h3⟩
  | rec :: rest, acc, h1, h2, h3 => by
    rw [fbInner]
    split_ifs with hfull hseen hdup
    · exact ⟨h1, h2, h3⟩
    · exact fbInner_invariant seen max bt rest acc h1 h2 h3
    · exact fbInner_invariant seen max bt rest acc h1 h2 h3
    · apply fbInner_invariant seen max bt rest
      · simp only [List.length_append, List.length_singleton]
        omega
      · intro x hx v hv
        rcases List.mem_append.mp hx with hx' | hx'
        · exact h2 x hx' v hv
        · rcases List.mem_singleton.mp hx' with rfl
          simp only [Option.some.injEq] at hv
          rw [← hv]
          exact hseen
      · rw [List.pairwise_append]
        refine ⟨h3, List.pairwise_singleton _ _, ?_⟩
        intro a ha b hb
        rcases List.mem_singleton.mp hb with rfl
        simp only [Bool.not_eq_true, List.any_eq_false, decide_eq_true_eq] at hdup
        exact fun he => hdup a ha he

theorem fbOuter_invariant (env : Env) (seen : List Int) (max : Nat) :
    ∀ (l : List IncomingRating) (acc : List Rec),
      acc.length ≤ max →
      (∀ x ∈ acc, ∀ v, x.tmdbId = some v → v ∉ seen) →
      acc.Pairwise (fun a b => a.tmdbId ≠ b.tmdbId) →
      (fbOuter env seen max l acc).1.length ≤ max ∧
      (∀ x ∈ (fbOuter env seen max l acc).1, ∀ v, x.tmdbId = some v → v ∉ seen) ∧
      (fbOuter env seen max l acc).1.Pairwise (fun a b => a.tmdbId ≠ b.tmdbId)
  | [], acc, h1, h2, h3 => ⟨h1, h2, h3⟩
  | r :: rest, acc, h1, h2, h3 => by
    rw [fbOuter]
    split_ifs with hfull
    · exact ⟨h1, h2, h3⟩
    · dsimp only
      have hi := fbInner_invariant seen max
        (fetchMovieBasicFromTmdb env r.tmdbId).1.title
        (fetchRecommendedFromTmdb env r.tmdbId seen 5).1 acc h1 h2 h3
      exact fbOuter_invariant env seen max rest _ hi.1 hi.2.1 hi.2.2

theorem fallbackSimple_invariant (env : Env) (topRatings : List IncomingRating)
    (max : Nat) (seenIds : List Int) :
    (fallbackSimpleFromTmdb env topRatings max seenIds).1.length ≤ max ∧
    (∀ x ∈ (fallbackSimpleFromTmdb env topRatings max seenIds).1,
      ∀ v, x.tmdbId = some v → v ∉ seenIds) ∧
    (fallbackSimpleFromTmdb env topRatings max seenIds).1.Pairwise
      (fun a b => a.tmdbId ≠ b.tmdbId) :=
  fbOuter_invariant env seenIds max topRatings []
    (Nat.zero_le max) (by intro x hx; cases hx) (List.Pairwise.nil)

/-! ### Claim C10 -/

/-- C10: `fallbackSimpleFromTmdb` returns at most `max` recommendations,
their ids are pairwise distinct, and none of them lies in the blocked-id
set `seenIds` that was passed in. -/

theorem catalogFallbackInvariants (env : Env) (topRatings : List IncomingRating)
    (max : Nat) (seenIds : List Int) (_hpos : 0 < max) :
    (fallbackSimpleFromTmdb env topRatings max seenIds).1.length ≤ max ∧
    (∀ x ∈ (fallbackSimpleFromTmdb env topRatings max seenIds).1,
      ∀ v, x.tmdbId = some v → v ∉ seenIds) ∧
    (fallbackSimpleFromTmdb env topRatings max seenIds).1.Pairwise
      (fun a b => a.tmdbId ≠ b.tmdbId) :=
  fallbackSimple_invariant env topRatings max seenIds

/-- C10 (witness): the invariants evaluated on a concrete run that returns
one recommendation. -/

theorem catalogFallbackWitness :
    (fallbackSimpleFromTmdb envAlpha [ratingAlpha] 15 [100]).1.length ≤ 15 ∧
    (∀ x ∈ (fallbackSimpleFromTmdb envAlpha [ratingAlpha] 15 [100]).1,
      ∀ v, x.tmdbId = some v → v ∉ [(100 : Int)]) ∧
    (fallbackSimpleFromTmdb envAlpha [ratingAlpha] 15 [100]).1.Pairwise
      (fun a b => a.tmdbId ≠ b.tmdbId) :=
  catalogFallbackInvariants envAlpha [ratingAlpha] 15 [100] (by decide)

/-! ### Claim C5 -/

/-- C5: when `uid` is missing or `ratings` is not an array, the handler
answers the 400 validation error immediately, with an empty external-call
trace. -/

theorem requestValidationImmediate (env : Env) (req : Request)
    (hm : req.method = .post)
    (hv : req.uid = none ∨ req.ratings = none) :
    handlerRecommendationsTs env req = (.err 400 msgUidRatings none, []) := by
  obtain ⟨m, uid, ratings, mi⟩ := req
  dsimp only at hm hv
  subst hm
  rcases hv with h | h
  · subst h
    cases ratings with
    | none => rfl
    | some rs => rfl
  · subst h
    rfl

/-- C5 (witness): the validation error on a concrete uid-less request. -/

theorem requestValidationWitness :
    handlerRecommendationsTs envNone
        { method := .post, uid := none, ratings := some [], maxItems := none }
      = (.err 400 msgUidRatings none, []) :=
  requestValidationImmediate envNone _ rfl (Or.inl rfl)

/-! ### Claim C4 -/

/-- C4 (counterexample): a request whose `uid` is present but equal to the
empty string (falsy in JS) with `ratings = []` is rejected with the 400
validation error, not answered with the empty success response the claim
demands. -/

theorem emptyStringUidRejected :
    (handlerRecommendationsTs envNone
        { method := .post, uid := some [], ratings := some [], maxItems := none }).1
      = .err 400 msgUidRatings none ∧
    ∀ recs info,
      (handlerRecommendationsTs envNone
          { method := .post, uid := some [], ratings := some [], maxItems := none }).1
        ≠ .ok recs info := by
  refine ⟨rfl, ?_⟩
  intro recs info h
  have h0 : (handlerRecommendationsTs envNone
      { method := .post, uid := some [], ratings := some [], maxItems := none }).1
      = .err 400 msgUidRatings none := rfl
  rw [h0] at h
  exact ApiResponse.noConfusion h

/-- C4 (amended): for every request whose `uid` is present and non-empty
and whose `ratings` is the empty array, the handler immediately returns the
success response `{ recommendations: [] }` with an informational note and
makes no external call. -/

theorem emptyRatingsImmediateOk (env : Env) (req : Request) (u : Str)
    (hm : req.method = .post) (hu : req.uid = some u) (hne : u ≠ [])
    (hr : req.ratings = some []) :
    handlerRecommendationsTs env req = (.ok [] (some infoSinValoraciones), []) := by
  obtain ⟨m, uid, ratings, mi⟩ := req
  dsimp only at hm hu hr
  subst hm
  subst hu
  subst hr
  simp [handlerRecommendationsTs, uidFalsy, hne]

/-- C4 (witness): the amended behaviour on a concrete request. -/

theorem emptyRatingsWitness :
    handlerRecommendationsTs envNone
        { method := .post, uid := some "u".toList, ratings := some [], maxItems := none }
      = (.ok [] (some infoSinValoraciones), []) :=
  emptyRatingsImmediateOk envNone _ ("u".toList) rfl rfl (by decide) rfl

/-! ### Claim C7 -/

/-- C7: for every request with non-empty ratings, any success response of
the handler carries at most `max` recommendations, where `max` is
`maxItems` when that is a positive number and the constant 15 otherwise. -/

theorem resultSizeBound (env : Env) (req : Request)
    (ratings : List IncomingRating) (hr : req.ratings = some ratings)
    (hne : ratings ≠ []) (recs : List Rec) (info : Option Str)
    (hok : (handlerRecommendationsTs env req).1 = .ok recs info) :
    recs.length ≤ (maxOf req.maxItems).toNat := by
  obtain ⟨m, uid, ratings0, mi⟩ := req
  dsimp only at hr hok ⊢
  subst hr
  unfold handlerRecommendationsTs at hok
  cases m with
  | other => exact absurd hok (by simp)
  | post =>
    dsimp only at hok
    split at hok
    · exact absurd hok (by simp)
    · split at hok
      · -- TMDB produced no candidates: the simple fallback answers
        dsimp only at hok
        rw [ApiResponse.ok.injEq] at hok
        rw [← hok.1]
        exact (fallbackSimple_invariant env (sortByOverallDesc ratings)
          (maxOf mi).toNat (ratings.map (·.tmdbId))).1
      · split at hok
        · exact absurd hok (by simp)
        · split at hok
          · -- generative call threw
            dsimp only at hok
            rw [ApiResponse.ok.injEq] at hok
            rw [← hok.1]
            exact (fallbackSimple_invariant env (sortByOverallDesc ratings)
              (maxOf mi).toNat (ratings.map (·.tmdbId))).1
          · -- non-success status
            dsimp only at hok
            rw [ApiResponse.ok.injEq] at hok
            rw [← hok.1]
            exact (fallbackSimple_invariant env (sortByOverallDesc ratings)
              (maxOf mi).toNat (ratings.map (·.tmdbId))).1
          · -- success text: either empty-after-cleaning or truncation
            split at hok
            · dsimp only at hok
              rw [ApiResponse.ok.injEq] at hok
              rw [← hok.1]
              exact (fallbackSimple_invariant env (sortByOverallDesc ratings)
                (maxOf mi).toNat (ratings.map (·.tmdbId))).1
            · dsimp only at hok
              rw [ApiResponse.ok.injEq] at hok
              rw [← hok.1]
              exact List.length_take_le _ _

set_option maxRecDepth 10000 in

/-- C7 (witness): the bound evaluated on a concrete run through the
non-success-status fallback path. -/

theorem resultSizeBoundWitness :
    ([recGamma999] : List Rec).length ≤ (maxOf none).toNat :=
  resultSizeBound envAlpha reqAlpha [ratingAlpha] rfl (by decide)
    [recGamma999] (some (infoFbStatus 500)) (by decide)

/-! ### Claim C1 -/

theorem pos_of_mem_ratedIdsSetOf {v : Int} {ratings : List IncomingRating}
    (h : v ∈ ratedIdsSetOf ratings) : 0 < v := by
  unfold ratedIdsSetOf at h
  have := List.of_mem_filter h
  simpa using this

theorem mem_geminiBlockFilter {ts : List Str} {ids : List Int} {l : List Rec}
    {r : Rec} (h : r ∈ geminiBlockFilter ts ids l) :
    normalizeTitle r.title ∉ ts ∧
    ∀ v, r.tmdbId = some v → ¬(v ≠ 0 ∧ v ∈ ids) := by
  unfold geminiBlockFilter at h
  have hp := List.of_mem_filter h
  simp only [Bool.and_eq_true, Bool.not_eq_eq_eq_not, Bool.not_true,
    decide_eq_false_iff_not] at hp
  refine ⟨hp.1.2, ?_⟩
  intro v hv hc
  have hfalse := hp.2
  rw [hv] at hfalse
  unfold idTruthyMem at hfalse
  simp at hfalse
  tauto

/-- C1 (amended): the blocklist invariant as the code actually enforces it.
In the Generative tier of the `part_003` handler every returned
recommendation avoids the rated normalized-title set and the rated-id set
(`part_003` has no pending input, so the blocked sets are built from the
enriched rated items alone).  In the CatalogNeighbor tier
(`fallbackSimpleFromTmdb` of `recommendations.ts`) only the id-based
exclusion is enforced; titles are not checked there. -/

theorem blockedSetEnforcement :
    (∀ (env : Env3) (req : Request) (u : Str) (raw : List IncomingRating) (text : Str),
      req.method = .post → req.uid = some u → u ≠ [] →
      req.ratings = some raw → raw ≠ [] →
      env.geminiKey = true → env.gemini = .ok text →
      geminiBlockFilter (ratedTitlesSetOf (raw.map (enrichRating env)))
          (ratedIdsSetOf (raw.map (enrichRating env)))
          (cleanRecs (extractRecs env.parse text)) ≠ [] →
      ∃ recs, handlerPart003 env req = .ok recs (some infoIaFallback) ∧
        ∀ r ∈ recs,
          normalizeTitle r.title ∉ ratedTitlesSetOf (raw.map (enrichRating env)) ∧
          ∀ v, r.tmdbId = some v →
            v ∉ ratedIdsSetOf (raw.map (enrichRating env))) ∧
    (∀ (env : Env) (tops : List IncomingRating) (max : Nat) (seen : List Int),
      ∀ r ∈ (fallbackSimpleFromTmdb env tops max seen).1,
        ∀ v, r.tmdbId = some v → v ∉ seen) := by
  constructor
  · intro env req u raw text hm hu hune hr hne hkey hg hcl
    obtain ⟨m, uid, ratings0, mi⟩ := req
    dsimp only at hm hu hr
    subst hm
    subst hu
    subst hr
    unfold handlerPart003
    dsimp only
    rw [if_neg (by simp [uidFalsy, hune])]
    rw [if_neg hne]
    rw [if_neg (by simp [hkey])]
    rw [hg]
    dsimp only
    rw [if_neg hcl]
    refine ⟨_, rfl, ?_⟩
    intro r hrmem
    have hmem : r ∈ geminiBlockFilter
        (ratedTitlesSetOf (raw.map (enrichRating env)))
        (ratedIdsSetOf (raw.map (enrichRating env)))
        (cleanRecs (extractRecs env.parse text)) :=
      List.mem_of_mem_take hrmem
    have hprop := mem_geminiBlockFilter hmem
    refine ⟨hprop.1, ?_⟩
    intro v hv hvin
    exact hprop.2 v hv ⟨by
      intro h0
      rw [h0] at hvin
      exact absurd (pos_of_mem_ratedIdsSetOf hvin) (by omega), hvin⟩
  · intro env tops max seen
    exact (fallbackSimple_invariant env tops max seen).2.1

set_option maxRecDepth 10000 in

/-- C1 (counterexample): the CatalogNeighbor tier can return a blocked
title.  The user rated movie 100 `Alpha`; TMDB recommends movie 999 whose
title is also `Alpha`.  With the generative service answering 500, the
handler's success response contains a recommendation whose normalized title
is in the blocked normalized-title set built from the rated items. -/

theorem catalogTierTitleLeak :
    (handlerRecommendationsTs envAlpha reqAlpha).1
      = .ok [recGamma999] (some (infoFbStatus 500)) ∧
    recGamma999.title = some "Alpha".toList ∧
    normalizeTitle (some "Alpha".toList) ∈ ratedTitlesSetOf [ratingAlpha] := by
  refine ⟨by decide, by decide, by decide⟩

set_option maxRecDepth 10000 in

/-- C1 (witness): the amended Generative-tier invariant evaluated on a
concrete request whose generative output survives the filter. -/

theorem blockedSetEnforcementWitness :
    ∃ recs, handlerPart003 envGamma reqAlpha = .ok recs (some infoIaFallback) ∧
      ∀ r ∈ recs,
        normalizeTitle r.title
            ∉ ratedTitlesSetOf ([ratingAlpha].map (enrichRating envGamma)) ∧
        ∀ v, r.tmdbId = some v →
          v ∉ ratedIdsSetOf ([ratingAlpha].map (enrichRating envGamma)) :=
  blockedSetEnforcement.1 envGamma reqAlpha ("u".toList) [ratingAlpha]
    ("json".toList) rfl rfl (by decide) rfl (by decide) rfl rfl (by decide)

set_option maxRecDepth 10000 in

/-- C6 (counterexample): the `part_001` second handler answers a Gemini 500
with a 200 response carrying an empty list — no CatalogNeighbor and no
LocalHeuristic tier is entered, contradicting the claimed tier advance. -/

theorem noTierAdvanceAfterGeminiFailure : ¬ geminiFailureClaim := by
  intro h
  obtain ⟨recs, info, heq, hner⟩ := h envBad reqAlpha ("u".toList) [ratingAlpha]
    rfl rfl (by decide) rfl (by decide) rfl ⟨500, rfl⟩
  have h0 : handlerPart001v2 envBad reqAlpha = .ok [] (some infoIaError1v2) := by
    decide
  rw [h0] at heq
  rw [ApiResponse.ok.injEq] at heq
  exact hner heq.1.symm

/-- C6 (amended): in `recommendations.ts`, when the generative service
returns a non-success status (after the candidate-building phase produced
at least one candidate and a key is configured), the handler advances to
the CatalogNeighbor tier and answers 200 with that tier's best-effort
(possibly empty) list — the transport failure is never surfaced as an
error.  No LocalHeuristic tier exists in this endpoint, so the pipeline
does not advance further when the catalog tier yields nothing. -/

theorem geminiFailureFallsBackToCatalog (env : Env) (req : Request) (u : Str)
    (ratings : List IncomingRating) (code : Nat)
    (hm : req.method = .post) (hu : req.uid = some u) (hune : u ≠ [])
    (hr : req.ratings = some ratings) (hne : ratings ≠ [])
    (hcand : (candOuter env (ratings.map (·.tmdbId))
        ((sortByOverallDesc ratings).take 10) []).1 ≠ [])
    (hkey : env.geminiKey = true) (hg : env.gemini = .badStatus code) :
    (handlerRecommendationsTs env req).1
      = .ok (fallbackSimpleFromTmdb env (sortByOverallDesc ratings)
              (maxOf req.maxItems).toNat (ratings.map (·.tmdbId))).1
          (some (infoFbStatus code)) := by
  obtain ⟨m, uid, ratings0, mi⟩ := req
  dsimp only at hm hu hr ⊢
  subst hm
  subst hu
  subst hr
  unfold handlerRecommendationsTs
  dsimp only
  rw [if_neg (by simp [uidFalsy, hune])]
  rw [if_neg hne]
  rw [if_neg hcand]
  rw [if_neg (by simp [hkey])]
  rw [hg]

set_option maxRecDepth 10000 in

/-- C6 (witness): the amended behaviour on a concrete run where Gemini
answers 500 and the catalog fallback produces one recommendation. -/

theorem geminiFailureFallsBackWitness :
    (handlerRecommendationsTs envAlpha reqAlpha).1
      = .ok (fallbackSimpleFromTmdb envAlpha (sortByOverallDesc [ratingAlpha])
              (maxOf none).toNat ([ratingAlpha].map (·.tmdbId))).1
          (some (infoFbStatus 500)) :=
  geminiFailureFallsBackToCatalog envAlpha reqAlpha ("u".toList) [ratingAlpha]
    500 rfl rfl (by decide) rfl (by decide) (by decide) rfl rfl

/-! ### Claim C8 -/

/-- C8: the LocalHeuristic tier equals the user's own rated items sorted by
overall score descending, truncated to at most `max`, each mapped to a
recommendation with the item's id, its title (placeholder
`Película <tmdbId>` when absent) and the templated reason. -/

theorem localHeuristicSpec (ratings : List IncomingRating) (max : Int) :
    ∃ s, List.Perm s ratings ∧
      List.Pairwise (fun a b => b.overall ≤ a.overall) s ∧
      localFallback ratings max
        = (s.take (min max.toNat s.length)).map
            (fun r => ⟨some r.tmdbId, some (titleOrPlaceholder r), some (localReason r)⟩) ∧
      (localFallback ratings max).length ≤ max.toNat := by
  refine ⟨sortByOverallDesc ratings, List.perm_insertionSort overallGe ratings,
    ?_, rfl, ?_⟩
  · exact List.sorted_insertionSort overallGe ratings
  · unfold localFallback
    rw [List.length_map, List.length_take]
    omega

/-! ### Claim C9 -/

theorem dropWhile_cons_head {α : Type} {p : α → Bool} {l : List α} {c : α}
    {tl : List α} (h : l.dropWhile p = c :: tl) : p c = false := by
  induction l with
  | nil => cases h
  | cons a l2 ih =>
    rw [List.dropWhile_cons] at h
    split at h
    · exact ih h
    · next hp =>
      rw [List.cons.injEq] at h
      rw [← h.1]
      simpa using hp

/-- The span matched by the greedy regex runs from the first `{` of the
text to its last `}`. -/

theorem braceSpan_split {text span : Str} (h : braceSpan text = some span) :
    ∃ pre post, text = pre ++ span ++ post ∧
      Char.ofNat 123 ∉ pre ∧ Char.ofNat 125 ∉ post ∧
      span.head? = some (Char.ofNat 123) ∧
      span.getLast? = some (Char.ofNat 125) := by
  unfold braceSpan at h
  cases ht : text.dropWhile (fun c => c ≠ Char.ofNat 123) with
  | nil => rw [ht] at h; cases h
  | cons c tl =>
    rw [ht] at h
    dsimp only at h
    cases hr : (c :: tl).reverse.dropWhile (fun c => c ≠ Char.ofNat 125) with
    | nil => rw [hr] at h; cases h
    | cons d tl2 =>
      rw [hr] at h
      dsimp only at h
      rw [Option.some.injEq] at h
      subst h
      have h1 : text.takeWhile (fun c => c ≠ Char.ofNat 123) ++ (c :: tl) = text := by
        rw [← ht]
        exact List.takeWhile_append_dropWhile _ _
      have h2 : (c :: tl).reverse.takeWhile (fun c => c ≠ Char.ofNat 125)
          ++ (d :: tl2) = (c :: tl).reverse := by
        rw [← hr]
        exact List.takeWhile_append_dropWhile _ _
      have h3 : c :: tl
          = (d :: tl2).reverse
            ++ ((c :: tl).reverse.takeWhile (fun c => c ≠ Char.ofNat 125)).reverse := by
        have := congrArg List.reverse h2
        rw [List.reverse_append, List.reverse_reverse] at this
        exact this.symm
      refine ⟨text.takeWhile (fun c => c ≠ Char.ofNat 123),
        ((c :: tl).reverse.takeWhile (fun c => c ≠ Char.ofNat 125)).reverse,
        ?_, ?_, ?_, ?_, ?_⟩
      · rw [List.append_assoc, ← h3, h1]
      · intro hmem
        have := List.mem_takeWhile_imp hmem
        simp at this
      · intro hmem
        have := List.mem_takeWhile_imp (List.mem_reverse.mp hmem)
        simp at this
      · have hc : c = Char.ofNat 123 := by
          have := dropWhile_cons_head ht
          simpa using this
        have hh := congrArg List.head? h3
        rw [List.head?_cons, List.head?_append] at hh
        cases hsp : ((d :: tl2).reverse : Str).head? with
        | none =>
          rw [List.head?_eq_none_iff] at hsp
          simp at hsp
        | some y =>
          rw [hsp] at hh
          simp only [Option.or_some] at hh
          have hyc : c = y := Option.some.inj hh
          exact congrArg some (hyc ▸ hc)
      · rw [List.getLast?_reverse, List.head?_cons]
        have := dropWhile_cons_head hr
        simp at this
        rw [this]

/-- C9: response extraction is a total function of the raw text and never
propagates a parse failure.  If the direct parse succeeds the wrapper's
list field is used; if it fails, the extractor retries exactly on the
first-`{`-to-last-`}` span of the text; if that also fails — or if the
parsed wrapper's `recommendations` field is missing or not an array — the
result is exactly the empty candidate list. -/

theorem responseExtractionTotal (parse : Str → Option ParsedWrapper) (text : Str) :
    (∀ w, parse text = some w → extractRecs parse text = recsOfWrapper w) ∧
    (parse text = none → braceSpan text = none → extractRecs parse text = []) ∧
    (parse text = none → ∀ span, braceSpan text = some span →
      parse span = none → extractRecs parse text = []) ∧
    (parse text = none → ∀ span w, braceSpan text = some span →
      parse span = some w → extractRecs parse text = recsOfWrapper w) ∧
    (∀ span, braceSpan text = some span →
      ∃ pre post, text = pre ++ span ++ post ∧
        Char.ofNat 123 ∉ pre ∧ Char.ofNat 125 ∉ post ∧
        span.head? = some (Char.ofNat 123) ∧
        span.getLast? = some (Char.ofNat 125)) ∧
    (∀ w : ParsedWrapper,
      w.recommendations = .absent ∨ w.recommendations = .notList →
      recsOfWrapper w = []) := by
  refine ⟨?_, ?_, ?_, ?_, ?_, ?_⟩
  · intro w hw
    unfold extractRecs
    rw [hw]
  · intro hp hb
    unfold extractRecs
    rw [hp, hb]
  · intro hp span hb hps
    unfold extractRecs
    rw [hp, hb]
    dsimp only
    rw [hps]
  · intro hp span w hb hps
    unfold extractRecs
    rw [hp, hb]
    dsimp only
    rw [hps]
  · intro span hb
    exact braceSpan_split hb
  · intro w hw
    unfold recsOfWrapper
    rcases hw with hw | hw <;> rw [hw]

/-- C9 (witness): the extraction yields zero candidates on a concrete text
with no brace span and an always-failing parser. -/

theorem responseExtractionWitness :
    extractRecs (fun _ => none) ("sin llaves".toList) = [] :=
  (responseExtractionTotal (fun _ => none) ("sin llaves".toList)).2.1 rfl
    (by decide)
